import Mathlib

/-!  Formal model of the TR.AI.NS train agent (src/Train.py) and the shared
edge-availability semaphore (src/Simulation.py).  Positions and distances are
modelled over a linear ordered field `α` (the Python code computes with
floats); the square root used by `scipy.spatial.distance.euclidean` is an
explicit parameter `sqrt : α → α`, to be instantiated at `Real.sqrt` for the
real program and at computable functions for concrete evaluation.  Fallible
Python operations (IndexError, KeyError, ZeroDivisionError, unpacking of
`None`) are modelled with `Option`: `none` is an uncaught exception. -/

namespace TrainSim

/-- Operational modes of a train, from `class TrainModes(Enum)` in Train.py. -/
inductive TrainModes : Type
  | wait
  | accept
  | busy
  | outOfOrder
deriving DecidableEq

/-- Message type tags.  Modelled from the spec: the class `MsgTypes` lives in
Protocol.py, which is not part of the sources; the spec (section 3) lists the
six message types REQ, REQ_ACK, ELEC, ELEC_ACK, LEADER, REQ_ANS. -/
inductive MsgTypes : Type
  | req
  | req_ack
  | elec
  | elec_ack
  | leader
  | req_ans
deriving DecidableEq

/-- Modelled from the spec: the class `Message` lives in Protocol.py, which is
not part of the sources.  Per spec sections 3 and 6, a message is a tagged
record with `sender`, optional `receiver`, and per-type payload fields
(`clientID`, `distance`, `pickUp`, `dropOff`); the codec round-trips, so we
work directly with decoded records.  Fields absent from a message are `none`
(reading them in Python would raise a KeyError). -/
structure Msg (α : Type) where
  nType : MsgTypes
  sender : ℕ
  receiver : Option ℕ := none
  clientID : Option ℕ := none
  distance : Option α := none
  pickUp : Option (α × α) := none
  dropOff : Option (α × α) := none
deriving DecidableEq

/-- The in-flight request dictionary `self.unprocessedReqs` of Train.py
(line 130): `dict(ID=.., pickup=.., dropoff=.., delayT=.., inElections=..,
simpleD=.., route=.., msgWait=..)`.  `route`/`simpleD` are `Option` because
the local variables start as `route, d = None, None` (line 124) and a routing
oracle reporting no route leaves them `None`. -/
structure Pend (α : Type) where
  ID : ℕ
  pickup : α × α
  dropoff : α × α
  delayT : ℕ
  inElections : Bool
  simpleD : Option α
  route : Option (List (α × α))
  msgWait : ℕ
deriving DecidableEq

/-- The mutable attributes of `class Train` (Train.py `__init__`).  The map
data is reduced to `vert_idx` (vertex position to index), the only map
attribute the coordination code reads.  `killed` records that `kill()` ran. -/
structure Train (α : Type) where
  id : ℕ
  pos : α × α
  currentEdge : Option (ℕ × ℕ)
  vStep : α
  v : α × α
  vMax : α
  messageBuffer : List (Msg α)
  vert_idx : α × α → Option ℕ
  trainMode : TrainModes
  currentGoal : Option (α × α)
  client : List (ℕ × (α × α) × (α × α))
  path : List (α × α)
  unprocessedReqs : Option (Pend α)
  outOfElec : Option ℕ
  delayWanted : ℕ
  maximumMsgWait : ℕ
  killed : Bool

/-- The shared `availability` dictionary built in Simulation.py and stored as
`self.semaphore` in every train.  Python dictionary keys are the canonical
edge tuples `(a, b)` — plus, after the spurious release of Train.py line 431,
possibly the key `None`; so keys are `Option (ℕ × ℕ)` and an absent key maps
to `none` (reading it raises KeyError). -/
abbrev Sem : Type := Option (ℕ × ℕ) → Option Bool

/-- Python dictionary store `d[k] = b`. -/
def semInsert (sem : Sem) (k : Option (ℕ × ℕ)) (b : Bool) : Sem :=
  fun q => if q = k then some b else sem q

/-- The possible results of Python's `random.randint(a, b)`: both endpoints
inclusive. -/
def randint_bound (a b r : ℕ) : Prop := a ≤ r ∧ r ≤ b

/-- `Train.__init__` (Train.py lines 35-88) restricted to the modelled
attributes.  `r` is the value drawn by `randint(1, 11)` for `delayWanted`. -/
def trainInit {α : Type} [LinearOrderedField α] (ID : ℕ) (pos0 : α × α)
    (vi : α × α → Option ℕ) (r : ℕ) : Train α :=
  { id := ID
    pos := pos0
    currentEdge := none
    vStep := 1 / 10
    v := (0, 0)
    vMax := 6
    messageBuffer := []
    vert_idx := vi
    trainMode := TrainModes.wait
    currentGoal := none
    client := []
    path := []
    unprocessedReqs := none
    outOfElec := none
    delayWanted := r
    maximumMsgWait := 100
    killed := false }

variable {α : Type} [LinearOrderedField α]

/-- `Train.calculate_route` (Train.py lines 369-371): the routing stub,
`return [], 4`.  Wrapped in `some` to share the signature of the routing
oracle capability of spec section 9 (`none` = oracle reports no route). -/
def calculate_route (_init _fin : α × α) : Option (List (α × α) × α) :=
  some ([], 4)

/-- `scipy.spatial.distance.euclidean` on two planar points, with the square
root abstracted as a parameter. -/
def euclidean (sqrt : α → α) (p q : α × α) : α :=
  sqrt ((p.1 - q.1) ^ 2 + (p.2 - q.2) ^ 2)

/-- `Train.full_distance` (Train.py lines 374-380): sum of Euclidean lengths
of successive vertices of `path`; `0` for an empty (or singleton) path. -/
def full_distance (sqrt : α → α) : List (α × α) → α
  | [] => 0
  | [_] => 0
  | p :: q :: rest => euclidean sqrt p q + full_distance sqrt (q :: rest)

/-- `Train.receive_message` (Train.py lines 260-278) on an already-decoded
message: REQ and ELEC are enqueued unconditionally, anything else only when
addressed to this train.  Appending to `messageBuffer` models `+= [msg]`. -/
def receive_message (t : Train α) (m : Msg α) : Train α :=
  if m.nType = MsgTypes.req then
    { t with messageBuffer := t.messageBuffer ++ [m] }
  else if m.nType = MsgTypes.elec then
    { t with messageBuffer := t.messageBuffer ++ [m] }
  else if m.receiver = some t.id then
    { t with messageBuffer := t.messageBuffer ++ [m] }
  else t

/-- Train.py lines 97-101: while a request is pending, each step bumps
`delayT` (before elections) or `msgWait` (during elections). -/
def stepTimers (t : Train α) : Train α :=
  match t.unprocessedReqs with
  | none => t
  | some p =>
    if p.inElections then
      { t with unprocessedReqs := some { p with msgWait := p.msgWait + 1 } }
    else
      { t with unprocessedReqs := some { p with delayT := p.delayT + 1 } }

/-- Train.py lines 104-107: `currentMessage = self.messageBuffer.pop()` —
Python's `list.pop()` removes and returns the LAST element. -/
def stepPopMessage (t : Train α) : Option (Msg α) × Train α :=
  match t.messageBuffer.getLast? with
  | none => (none, t)
  | some m => (some m, { t with messageBuffer := t.messageBuffer.dropLast })

/-- `Train.acknowlege_request` (Train.py lines 383-388): REQ_ACK addressed to
the pending client. -/
def acknowlege_request (t : Train α) : Option (Msg α) :=
  (t.unprocessedReqs).map fun p =>
    { nType := MsgTypes.req_ack, sender := t.id, receiver := some p.ID }

/-- `Train.silence_train` (Train.py lines 401-404): ELEC_ACK addressed to the
losing peer. -/
def silence_train (t : Train α) (nodeId : ℕ) : Option (Msg α) :=
  (t.unprocessedReqs).map fun p =>
    { nType := MsgTypes.elec_ack, sender := t.id, receiver := some nodeId,
      clientID := some p.ID }

/-- `Train.start_election` (Train.py lines 391-398): broadcast ELEC carrying
this train's distance. -/
def start_election (t : Train α) (d : α) : Option (Msg α) :=
  (t.unprocessedReqs).map fun p =>
    { nType := MsgTypes.elec, sender := t.id, distance := some d,
      clientID := some p.ID }

/-- `Train.client_accept` (Train.py lines 407-411): broadcast LEADER to the
trains and REQ_ANS to the client. -/
def client_accept (t : Train α) : Option (List (Msg α)) :=
  (t.unprocessedReqs).map fun p =>
    [{ nType := MsgTypes.leader, sender := t.id, clientID := some p.ID },
     { nType := MsgTypes.req_ans, sender := t.id, receiver := some p.ID }]

/-- The message dispatch of `Train.step` (Train.py lines 109-197), given the
popped message.  Returns the updated train and the messages it broadcast.
The parameter `oracle` is the routing capability (spec section 9);
the program as written uses `calculate_route`. -/
def processMessage (oracle : α × α → α × α → Option (List (α × α) × α))
    (sqrt : α → α) (t : Train α) (m : Msg α) : Option (Train α × List (Msg α)) :=
  if m.nType = MsgTypes.req then
    -- Case 1 (lines 114-134): service request from client
    if t.trainMode ≠ TrainModes.outOfOrder then
      match t.unprocessedReqs with
      | some _ => some (t, [])
      | none =>
        match m.pickUp, m.dropOff with
        | some pu, some dof =>
          let rd : Option (Option (List (α × α) × α)) :=
            if t.trainMode = TrainModes.wait then
              some (oracle t.pos pu)
            else
              -- accept or busy: route from `self.path[-1]`; IndexError if empty
              match t.path.getLast? with
              | none => none
              | some lastV => some (oracle lastV pu)
          match rd with
          | none => none
          | some r =>
            let newPend : Pend α :=
              { ID := m.sender
                pickup := pu
                dropoff := dof
                delayT := 0
                inElections := false
                simpleD := r.map (·.2)
                route := r.map (·.1)
                msgWait := 0 }
            let t1 := { t with unprocessedReqs := some newPend }
            match acknowlege_request t1 with
            | none => none
            | some ack => some (t1, [ack])
        | _, _ => none
    else some (t, [])
  else if m.nType = MsgTypes.elec then
    -- Case 2 (lines 138-171): election started by a peer
    if t.trainMode ≠ TrainModes.outOfOrder then
      match t.unprocessedReqs with
      | none => some (t, [])
      | some p =>
        if some p.ID = m.clientID then
          match p.simpleD, m.distance with
          | some sd, some dOther =>
            let dTot := sd + full_distance sqrt t.path
            if dTot < dOther then
              match silence_train t m.sender with
              | none => none
              | some sil =>
                if ¬ p.inElections then
                  let p1 := { p with inElections := true, msgWait := 0 }
                  let t1 := { t with unprocessedReqs := some p1 }
                  match start_election t1 dTot with
                  | none => none
                  | some own => some (t1, [sil, own])
                else some (t, [sil])
            else
              some ({ t with outOfElec := some p.ID, unprocessedReqs := none }, [])
          | _, _ => none
        else some (t, [])
    else some (t, [])
  else if m.nType = MsgTypes.elec_ack then
    -- Case 3 (lines 174-183): this train has been silenced
    match t.unprocessedReqs with
    | none => some (t, [])
    | some p =>
      if some p.ID = m.clientID then
        some ({ t with outOfElec := some p.ID, unprocessedReqs := none }, [])
      else some (t, [])
  else if m.nType = MsgTypes.leader then
    -- Case 4 (lines 186-193): a leader announced itself
    match t.unprocessedReqs with
    | none => some (t, [])
    | some p =>
      if some p.ID = m.clientID then
        some ({ t with outOfElec := some p.ID, unprocessedReqs := none }, [])
      else some (t, [])
  else some (t, [])

/-- Election start and finish inside `Train.step` (Train.py lines 201-232):
when the startup delay elapses, enter elections and broadcast ELEC; when the
silence timeout elapses, commit the client: append the route to `path`,
append the client to `client`, broadcast LEADER and REQ_ANS, and if waiting
switch to accept mode toward the head client's pickup. -/
def electionPhase (sqrt : α → α) (t : Train α) : Option (Train α × List (Msg α)) :=
  match t.unprocessedReqs with
  | none => some (t, [])
  | some p =>
    if ¬ p.inElections then
      if p.delayT = t.delayWanted then
        match p.simpleD with
        | none => none
        | some sd =>
          let d := sd + full_distance sqrt t.path
          let p1 := { p with inElections := true, msgWait := 0 }
          let t1 := { t with unprocessedReqs := some p1 }
          match start_election t1 d with
          | none => none
          | some own => some (t1, [own])
      else some (t, [])
    else
      if p.msgWait = t.maximumMsgWait then
        match p.route with
        | none => none
        | some r =>
          let cl := t.client ++ [(p.ID, p.pickup, p.dropoff)]
          let t1 := { t with path := t.path ++ r, client := cl }
          match client_accept t1 with
          | none => none
          | some msgs =>
            let t2 := { t1 with unprocessedReqs := none }
            let goal := match cl with
              | [] => none
              | c :: _ => some c.2.1
            let t3 :=
              if t2.trainMode = TrainModes.wait then
                { t2 with trainMode := TrainModes.accept, currentGoal := goal }
              else t2
            some (t3, msgs)
      else some (t, [])

/-- The edge-acquisition half of `Train.move` (Train.py lines 442-462),
reached with `v == [0, 0]`: look up the canonical edge to the next path
vertex; if the semaphore holds `False` stay stopped, otherwise claim the edge
and aim the speed at the next vertex. -/
def moveAcquire (sqrt : α → α) (t : Train α) (sem : Sem) : Option (Train α × Sem) :=
  match t.path with
  | [] => none
  | p0 :: _ =>
    match t.vert_idx t.pos, t.vert_idx p0 with
    | some v1, some v2 =>
      let a := max v1 v2
      let b := min v1 v2
      match sem (some (a, b)) with
      | none => none
      | some false => some (t, sem)
      | some true =>
        let sem1 := semInsert sem (some (a, b)) false
        let nextEdge := (p0.1 - t.pos.1, p0.2 - t.pos.2)
        let magnitude := euclidean sqrt p0 t.pos
        if magnitude = 0 then none
        else
          let direction := (nextEdge.1 / magnitude, nextEdge.2 / magnitude)
          let t1 := { t with
            currentEdge := some (a, b)
            v := (t.vMax * direction.1, t.vMax * direction.2) }
          some (t1, sem1)
    | _, _ => none

/-- The path-update half of `Train.move` (Train.py lines 428-462), after the
new position `pos2` has been computed: on reaching `path[0]` release
`currentEdge` in the semaphore (line 431 — executed even when `currentEdge`
is `None`) and pop the path, then (unless arrived at the goal) acquire the
next edge if stopped. -/
def moveUpd (sqrt : α → α) (t : Train α) (sem : Sem) (p0 : α × α)
    (rest : List (α × α)) (pos2 : α × α) : Option (Train α × Sem) :=
  if pos2 = p0 then
    let sem1 := semInsert sem t.currentEdge true
    let t1 := { t with pos := pos2, currentEdge := none, path := rest, v := (0, 0) }
    if some pos2 = t1.currentGoal then some (t1, sem1)
    else if t1.v = (0, 0) then moveAcquire sqrt t1 sem1
    else some (t1, sem1)
  else
    let t2 := { t with pos := pos2 }
    if t2.v = (0, 0) then moveAcquire sqrt t2 sem
    else some (t2, sem)

/-- `Train.move` (Train.py lines 414-462): advance along the current speed,
clamp on overshoot (roll back to `path[0]` when a velocity component points
away from it), then update path and semaphore via `moveUpd`. -/
def move (sqrt : α → α) (t : Train α) (sem : Sem) : Option (Train α × Sem) :=
  match t.path with
  | [] => some (t, sem)
  | p0 :: rest =>
    let pos1 : α × α := (t.pos.1 + t.v.1 * t.vStep, t.pos.2 + t.v.2 * t.vStep)
    let dtv := (p0.1 - pos1.1, p0.2 - pos1.2)
    let pos2 := if dtv.1 * t.v.1 < 0 ∨ dtv.2 * t.v.2 < 0 then p0 else pos1
    moveUpd sqrt t sem p0 rest pos2

/-- Arrival handling at the end of `Train.step` (Train.py lines 238-257):
boarding on accept, delivery on busy — note `self.client.pop()` removes the
LAST list element — and self-termination when out of order. -/
def arrivalPhase (t : Train α) : Option (Train α) :=
  if some t.pos = t.currentGoal then
    match t.trainMode with
    | TrainModes.accept =>
      match t.client with
      | [] => none
      | c :: _ => some { t with trainMode := TrainModes.busy, currentGoal := some c.2.2 }
    | TrainModes.busy =>
      match t.client with
      | [] => none
      | _ :: _ =>
        let cl := t.client.dropLast
        match cl with
        | [] =>
          some { t with client := [], currentGoal := none, trainMode := TrainModes.wait }
        | c :: _ =>
          some { t with client := cl, trainMode := TrainModes.accept, currentGoal := some c.2.1 }
    | TrainModes.wait => some t
    | TrainModes.outOfOrder => some { t with killed := true }
  else some t

/-- `Train.step` (Train.py lines 91-257): timers, consume one message,
dispatch it, election start and finish, move, arrival handling.  Returns the
updated train, the updated shared semaphore, and the broadcast messages. -/
def step (oracle : α × α → α × α → Option (List (α × α) × α)) (sqrt : α → α)
    (t : Train α) (sem : Sem) : Option (Train α × Sem × List (Msg α)) :=
  let t0 := stepTimers t
  let pm := stepPopMessage t0
  match (match pm.1 with
         | none => some (pm.2, [])
         | some m => processMessage oracle sqrt pm.2 m) with
  | none => none
  | some (t2, out1) =>
    match electionPhase sqrt t2 with
    | none => none
    | some (t3, out2) =>
      match move sqrt t3 sem with
      | none => none
      | some (t4, sem1) =>
        match arrivalPhase t4 with
        | none => none
        | some t5 => some (t5, sem1, out1 ++ out2)

/-! ## System model: several trains sharing one semaphore

The driver (Simulation.py main loop) steps every device once per tick and the
network delivers broadcast messages into peer inboxes.  Trains are indexed by
an arbitrary type `ι`; message delivery is over-approximated by allowing any
message to be offered to `receive_message` at any time. -/

/-- The `currentEdge` fields of a family of trains. -/
def ces {ι : Type} (ts : ι → Train α) : ι → Option (ℕ × ℕ) :=
  fun i => (ts i).currentEdge

/-- Spec section 8, invariant 1: per canonical edge key, at most one holder,
and a holder exists exactly when the semaphore holds `False` at that key. -/
def EdgeInv {ι : Type} (ce : ι → Option (ℕ × ℕ)) (sem : Sem) : Prop :=
  ∀ e : ℕ × ℕ,
    (∀ i j, ce i = some e → ce j = some e → i = j) ∧
    ((∃ i, ce i = some e) ↔ sem (some e) = some false)

/-- Auxiliary inductive facts about a single train: `vMax` keeps its initial
value 6, and a stopped train holds no edge. -/
def MotionOK (t : Train α) : Prop :=
  t.vMax = 6 ∧ (t.v = (0, 0) → t.currentEdge = none)

/-- States of the simulation reachable from a fresh start: trains are built
by `__init__`, the availability map never starts at `False` (Simulation.py
line 134 initialises every edge to `True`); then any interleaving of message
deliveries and train steps. -/
inductive Reachable (oracle : α × α → α × α → Option (List (α × α) × α))
    (sqrt : α → α) {ι : Type} [DecidableEq ι] :
    (ι → Train α) → Sem → Prop
  | init (ts : ι → Train α) (sem : Sem)
      (hts : ∀ i, ∃ ID p vi r, ts i = trainInit ID p vi r)
      (hsem : ∀ k, sem k ≠ some false) :
      Reachable oracle sqrt ts sem
  | recv (ts : ι → Train α) (sem : Sem) (i : ι) (m : Msg α)
      (h : Reachable oracle sqrt ts sem) :
      Reachable oracle sqrt (Function.update ts i (receive_message (ts i) m)) sem
  | dostep (ts : ι → Train α) (sem : Sem) (i : ι) (t' : Train α) (sem' : Sem)
      (out : List (Msg α)) (h : Reachable oracle sqrt ts sem)
      (hs : step oracle sqrt (ts i) sem = some (t', sem', out)) :
      Reachable oracle sqrt (Function.update ts i t') sem'

/-! ### Only `move` touches `currentEdge`, `v`, `vMax` and the semaphore -/

omit [LinearOrderedField α] in
lemma receive_message_motion (t : Train α) (m : Msg α) :
    (receive_message t m).currentEdge = t.currentEdge ∧
    (receive_message t m).v = t.v ∧ (receive_message t m).vMax = t.vMax := by
  unfold receive_message
  split <;> [skip; split] <;> first
  | exact ⟨rfl, rfl, rfl⟩
  | (split <;> exact ⟨rfl, rfl, rfl⟩)

omit [LinearOrderedField α] in
lemma stepTimers_motion (t : Train α) :
    (stepTimers t).currentEdge = t.currentEdge ∧
    (stepTimers t).v = t.v ∧ (stepTimers t).vMax = t.vMax := by
  unfold stepTimers
  split
  · exact ⟨rfl, rfl, rfl⟩
  · split <;> exact ⟨rfl, rfl, rfl⟩

omit [LinearOrderedField α] in
lemma stepPopMessage_motion (t : Train α) :
    ((stepPopMessage t).2).currentEdge = t.currentEdge ∧
    ((stepPopMessage t).2).v = t.v ∧ ((stepPopMessage t).2).vMax = t.vMax := by
  unfold stepPopMessage
  split <;> exact ⟨rfl, rfl, rfl⟩

lemma processMessage_motion (oracle : α × α → α × α → Option (List (α × α) × α))
    (sqrt : α → α) (t t' : Train α) (m : Msg α) (out : List (Msg α))
    (h : processMessage oracle sqrt t m = some (t', out)) :
    t'.currentEdge = t.currentEdge ∧ t'.v = t.v ∧ t'.vMax = t.vMax := by
  unfold processMessage at h
  repeat' first
    | (split at h)
    | (simp only [] at h)
  all_goals try cases h
  all_goals exact ⟨rfl, rfl, rfl⟩

lemma electionPhase_motion (sqrt : α → α) (t t' : Train α) (out : List (Msg α))
    (h : electionPhase sqrt t = some (t', out)) :
    t'.currentEdge = t.currentEdge ∧ t'.v = t.v ∧ t'.vMax = t.vMax := by
  unfold electionPhase at h
  repeat' first
    | (split at h)
    | (simp only [] at h)
  all_goals try cases h
  all_goals exact ⟨rfl, rfl, rfl⟩

lemma arrivalPhase_motion (t t' : Train α) (h : arrivalPhase t = some t') :
    t'.currentEdge = t.currentEdge ∧ t'.v = t.v ∧ t'.vMax = t.vMax := by
  unfold arrivalPhase at h
  repeat' first
    | (split at h)
    | (simp only [] at h)
  all_goals try cases h
  all_goals exact ⟨rfl, rfl, rfl⟩

/-! ### The semaphore invariant is preserved by releases and acquisitions -/

lemma semInsert_lookup (sem : Sem) (k q : Option (ℕ × ℕ)) (b : Bool) :
    semInsert sem k b q = if q = k then some b else sem q := rfl

omit [LinearOrderedField α] in
lemma ces_update {ι : Type} [DecidableEq ι] (ts : ι → Train α) (i : ι) (t' : Train α) :
    ces (Function.update ts i t') = Function.update (ces ts) i t'.currentEdge := by
  funext j
  simp only [ces, Function.update_apply]
  by_cases hj : j = i
  · simp [hj]
  · simp [hj]

/-- Releasing the edge the stepping train holds (Train.py line 431) keeps the
mutual-exclusion invariant: the released key is the unique edge the train held,
so no canonical key keeps a stale `False`. -/
lemma edgeInv_release {ι : Type} (ce : ι → Option (ℕ × ℕ)) (sem : Sem) (i : ι)
    [DecidableEq ι] (hinv : EdgeInv ce sem) :
    EdgeInv (Function.update ce i none) (semInsert sem (ce i) true) := by
  intro e
  obtain ⟨huniq, hiff⟩ := hinv e
  constructor
  · intro j k hj hk
    rw [Function.update_apply] at hj hk
    by_cases hji : j = i
    · rw [if_pos hji] at hj; cases hj
    · by_cases hki : k = i
      · rw [if_pos hki] at hk; cases hk
      · rw [if_neg hji] at hj
        rw [if_neg hki] at hk
        exact huniq j k hj hk
  · constructor
    · rintro ⟨j, hj⟩
      rw [Function.update_apply] at hj
      by_cases hji : j = i
      · rw [if_pos hji] at hj; cases hj
      · rw [if_neg hji] at hj
        rw [semInsert_lookup]
        by_cases hcei : ce i = some e
        · exact absurd (huniq j i hj hcei) hji
        · rw [if_neg (fun hh => hcei hh.symm)]
          exact hiff.mp ⟨j, hj⟩
    · intro hsem
      rw [semInsert_lookup] at hsem
      by_cases hkey : (some e : Option (ℕ × ℕ)) = ce i
      · rw [if_pos hkey] at hsem; cases hsem
      · rw [if_neg hkey] at hsem
        obtain ⟨j, hj⟩ := hiff.mpr hsem
        refine ⟨j, ?_⟩
        rw [Function.update_apply]
        by_cases hji : j = i
        · subst hji; exact absurd hj.symm hkey
        · rw [if_neg hji]; exact hj

/-- Claiming a free edge (Train.py line 455) keeps the mutual-exclusion
invariant, provided the claiming train holds nothing yet. -/
lemma edgeInv_acquire {ι : Type} (ce : ι → Option (ℕ × ℕ)) (sem : Sem) (i : ι)
    (k : ℕ × ℕ) [DecidableEq ι] (hinv : EdgeInv ce sem) (hice : ce i = none)
    (havail : sem (some k) = some true) :
    EdgeInv (Function.update ce i (some k)) (semInsert sem (some k) false) := by
  intro e
  obtain ⟨huniq, hiff⟩ := hinv e
  by_cases hek : e = k
  · subst hek
    have hnoh : ∀ j, ce j ≠ some e := by
      intro j hj
      have hf := hiff.mp ⟨j, hj⟩
      rw [havail] at hf
      cases hf
    constructor
    · intro j l hj hl
      rw [Function.update_apply] at hj hl
      by_cases hji : j = i
      · by_cases hli : l = i
        · rw [hji, hli]
        · rw [if_neg hli] at hl
          exact absurd hl (hnoh l)
      · rw [if_neg hji] at hj
        exact absurd hj (hnoh j)
    · constructor
      · intro _
        rw [semInsert_lookup, if_pos rfl]
      · intro _
        exact ⟨i, by rw [Function.update_apply, if_pos rfl]⟩
  · have hkey : (some e : Option (ℕ × ℕ)) ≠ some k := by
      intro hh; exact hek (Option.some_injective _ hh)
    constructor
    · intro j l hj hl
      rw [Function.update_apply] at hj hl
      by_cases hji : j = i
      · rw [if_pos hji] at hj
        cases hj
        exact absurd rfl hek
      · by_cases hli : l = i
        · rw [if_pos hli] at hl
          cases hl
          exact absurd rfl hek
        · rw [if_neg hji] at hj
          rw [if_neg hli] at hl
          exact huniq j l hj hl
    · rw [semInsert_lookup, if_neg hkey]
      constructor
      · rintro ⟨j, hj⟩
        rw [Function.update_apply] at hj
        by_cases hji : j = i
        · rw [if_pos hji] at hj
          cases hj
          exact absurd rfl hek
        · rw [if_neg hji] at hj
          exact hiff.mp ⟨j, hj⟩
      · intro hsem
        obtain ⟨j, hj⟩ := hiff.mpr hsem
        refine ⟨j, ?_⟩
        rw [Function.update_apply]
        by_cases hji : j = i
        · subst hji
          rw [hice] at hj
          cases hj
        · rw [if_neg hji]; exact hj

/-- The acquisition half of `move` preserves the invariant: the train either
stays stopped (semaphore `False`) or performs the check-and-set, and the speed
it sets is nonzero, so `MotionOK` survives. -/
lemma moveAcquire_pres {ι : Type} [DecidableEq ι] (sqrt : α → α)
    (ce : ι → Option (ℕ × ℕ)) (i : ι) (t t' : Train α) (sem sem' : Sem)
    (hsqrt : sqrt 0 = 0) (hmax : t.vMax = 6) (hte : t.currentEdge = none)
    (hce : ce i = none) (hinv : EdgeInv ce sem)
    (h : moveAcquire sqrt t sem = some (t', sem')) :
    EdgeInv (Function.update ce i t'.currentEdge) sem' ∧ MotionOK t' := by
  unfold moveAcquire at h
  cases hpath : t.path with
  | nil => rw [hpath] at h; cases h
  | cons p0 rest =>
    rw [hpath] at h
    simp only [] at h
    cases hv1 : t.vert_idx t.pos with
    | none => rw [hv1] at h; simp only [] at h; cases h
    | some v1 =>
      rw [hv1] at h
      cases hv2 : t.vert_idx p0 with
      | none => rw [hv2] at h; simp only [] at h; cases h
      | some v2 =>
        rw [hv2] at h
        simp only [] at h
        cases hsem : sem (some (max v1 v2, min v1 v2)) with
        | none => rw [hsem] at h; simp only [] at h; cases h
        | some b =>
          rw [hsem] at h
          cases b with
          | false =>
            simp only [] at h
            cases h
            constructor
            · rw [hte, ← hce, Function.update_eq_self]
              exact hinv
            · exact ⟨hmax, fun _ => hte⟩
          | true =>
            simp only [] at h
            by_cases hmag : euclidean sqrt p0 t.pos = 0
            · rw [if_pos hmag] at h; cases h
            · rw [if_neg hmag] at h
              cases h
              constructor
              · exact edgeInv_acquire ce sem i (max v1 v2, min v1 v2) hinv hce hsem
              · refine ⟨hmax, ?_⟩
                intro hv0
                exfalso
                have hne : ¬ (p0.1 - t.pos.1 = 0 ∧ p0.2 - t.pos.2 = 0) := by
                  rintro ⟨h1, h2⟩
                  apply hmag
                  unfold euclidean
                  rw [h1, h2]
                  have hz : (0 : α) ^ 2 + (0 : α) ^ 2 = 0 := by norm_num
                  rw [hz, hsqrt]
                rw [Prod.mk.injEq] at hv0
                obtain ⟨h1, h2⟩ := hv0
                rw [hmax] at h1 h2
                have h6 : (6 : α) ≠ 0 := by norm_num
                apply hne
                constructor
                · rcases mul_eq_zero.mp h1 with hh | hh
                  · exact absurd hh h6
                  · rcases div_eq_zero_iff.mp hh with hh1 | hh1
                    · exact hh1
                    · exact absurd hh1 hmag
                · rcases mul_eq_zero.mp h2 with hh | hh
                  · exact absurd hh h6
                  · rcases div_eq_zero_iff.mp hh with hh1 | hh1
                    · exact hh1
                    · exact absurd hh1 hmag

/-- `moveUpd` preserves the invariant and `MotionOK`, for any computed
position `pos2`. -/
lemma moveUpd_pres {ι : Type} [DecidableEq ι] (sqrt : α → α)
    (ce : ι → Option (ℕ × ℕ)) (i : ι) (t t' : Train α) (sem sem' : Sem)
    (p0 pos2 : α × α) (rest : List (α × α))
    (hsqrt : sqrt 0 = 0) (hmax : t.vMax = 6)
    (hstop : t.v = (0, 0) → t.currentEdge = none) (hce : ce i = t.currentEdge)
    (hinv : EdgeInv ce sem)
    (hmv : moveUpd sqrt t sem p0 rest pos2 = some (t', sem')) :
    EdgeInv (Function.update ce i t'.currentEdge) sem' ∧ MotionOK t' := by
  unfold moveUpd at hmv
  by_cases hpos : pos2 = p0
  · -- pos2 = p0: release branch
    rw [if_pos hpos] at hmv
    simp only [] at hmv
    have hrel := edgeInv_release ce sem i hinv
    rw [hce] at hrel
    by_cases hgoal : some pos2 = t.currentGoal
    · rw [if_pos hgoal] at hmv
      cases hmv
      exact ⟨hrel, hmax, fun _ => rfl⟩
    · rw [if_neg hgoal] at hmv
      rw [if_pos trivial] at hmv
      have h2 := moveAcquire_pres sqrt (Function.update ce i none) i
        { t with pos := pos2, currentEdge := none, path := rest, v := (0, 0) } t'
        (semInsert sem t.currentEdge true) sem' hsqrt hmax rfl
        (Function.update_same i none ce) hrel hmv
      rw [Function.update_idem] at h2
      exact h2
  · -- pos2 ≠ p0
    rw [if_neg hpos] at hmv
    simp only [] at hmv
    by_cases hv : t.v = (0, 0)
    · rw [if_pos hv] at hmv
      have hnone : t.currentEdge = none := hstop hv
      exact moveAcquire_pres sqrt ce i { t with pos := pos2 } t' sem sem' hsqrt
        hmax hnone (hce.trans hnone) hinv hmv
    · rw [if_neg hv] at hmv
      cases hmv
      constructor
      · have hproj : ({ t with pos := pos2 } : Train α).currentEdge = t.currentEdge := rfl
        rw [hproj, ← hce, Function.update_eq_self]
        exact hinv
      · exact ⟨hmax, fun hv2 => hstop hv2⟩

/-- `move` preserves the invariant and `MotionOK`. -/
lemma move_pres {ι : Type} [DecidableEq ι] (sqrt : α → α)
    (ce : ι → Option (ℕ × ℕ)) (i : ι) (t t' : Train α) (sem sem' : Sem)
    (hsqrt : sqrt 0 = 0) (hmo : MotionOK t) (hce : ce i = t.currentEdge)
    (hinv : EdgeInv ce sem)
    (hmv : move sqrt t sem = some (t', sem')) :
    EdgeInv (Function.update ce i t'.currentEdge) sem' ∧ MotionOK t' := by
  obtain ⟨hmax, hstop⟩ := hmo
  unfold move at hmv
  cases hpath : t.path with
  | nil =>
    rw [hpath] at hmv
    simp only [] at hmv
    cases hmv
    constructor
    · rw [← hce, Function.update_eq_self]
      exact hinv
    · exact ⟨hmax, hstop⟩
  | cons p0 rest =>
    rw [hpath] at hmv
    simp only [] at hmv
    exact moveUpd_pres sqrt ce i t t' sem sem' p0 _ rest hsqrt hmax hstop hce
      hinv hmv

/-- One full `step` of a single train preserves the invariant and its
motion facts: of the step's phases only `move` touches `currentEdge` or the
shared semaphore. -/
lemma step_pres {ι : Type} [DecidableEq ι]
    (oracle : α × α → α × α → Option (List (α × α) × α)) (sqrt : α → α)
    (ce : ι → Option (ℕ × ℕ)) (i : ι) (t t' : Train α) (sem sem' : Sem)
    (out : List (Msg α)) (hsqrt : sqrt 0 = 0) (hmo : MotionOK t)
    (hce : ce i = t.currentEdge) (hinv : EdgeInv ce sem)
    (hs : step oracle sqrt t sem = some (t', sem', out)) :
    EdgeInv (Function.update ce i t'.currentEdge) sem' ∧ MotionOK t' := by
  unfold step at hs
  simp only [] at hs
  cases hA : (match (stepPopMessage (stepTimers t)).1 with
      | none => some ((stepPopMessage (stepTimers t)).2, [])
      | some m => processMessage oracle sqrt (stepPopMessage (stepTimers t)).2 m) with
  | none => rw [hA] at hs; cases hs
  | some r2 =>
    rw [hA] at hs
    simp only [] at hs
    obtain ⟨t2, out1⟩ := r2
    have hmo2 : t2.currentEdge = t.currentEdge ∧ t2.v = t.v ∧ t2.vMax = t.vMax := by
      have hpop := stepPopMessage_motion (stepTimers t)
      have htm := stepTimers_motion t
      cases hb : (stepPopMessage (stepTimers t)).1 with
      | none =>
        rw [hb] at hA
        simp only [] at hA
        cases hA
        exact ⟨hpop.1.trans htm.1, hpop.2.1.trans htm.2.1, hpop.2.2.trans htm.2.2⟩
      | some m =>
        rw [hb] at hA
        simp only [] at hA
        have hpm := processMessage_motion oracle sqrt _ t2 m out1 hA
        exact ⟨(hpm.1.trans hpop.1).trans htm.1, (hpm.2.1.trans hpop.2.1).trans htm.2.1,
          (hpm.2.2.trans hpop.2.2).trans htm.2.2⟩
    cases hB : electionPhase sqrt t2 with
    | none => rw [hB] at hs; cases hs
    | some r3 =>
      rw [hB] at hs
      simp only [] at hs
      obtain ⟨t3, out2⟩ := r3
      have hel := electionPhase_motion sqrt t2 t3 out2 hB
      cases hC : move sqrt t3 sem with
      | none => rw [hC] at hs; cases hs
      | some r4 =>
        rw [hC] at hs
        simp only [] at hs
        obtain ⟨t4, sem1⟩ := r4
        have hmo3 : MotionOK t3 := by
          obtain ⟨g1, g2⟩ := hmo
          refine ⟨(hel.2.2.trans hmo2.2.2).trans g1, ?_⟩
          intro hv
          rw [hel.1, hmo2.1]
          exact g2 (hmo2.2.1.symm.trans (hel.2.1.symm.trans hv))
        have hce3 : ce i = t3.currentEdge := by rw [hce, ← hmo2.1, ← hel.1]
        have hmain := move_pres sqrt ce i t3 t4 sem sem1 hsqrt hmo3 hce3 hinv hC
        cases hD : arrivalPhase t4 with
        | none => rw [hD] at hs; cases hs
        | some t5 =>
          rw [hD] at hs
          simp only [] at hs
          cases hs
          have har := arrivalPhase_motion t4 _ hD
          constructor
          · rw [har.1]; exact hmain.1
          · obtain ⟨g1, g2⟩ := hmain.2
            refine ⟨har.2.2.trans g1, ?_⟩
            intro hv
            rw [har.1]
            exact g2 (har.2.1.symm.trans hv)

/-- The edge-exclusion invariant and the per-train motion facts hold in every
reachable state. -/
lemma reachable_inv {ι : Type} [DecidableEq ι]
    (oracle : α × α → α × α → Option (List (α × α) × α)) (sqrt : α → α)
    (ts : ι → Train α) (sem : Sem) (hsqrt : sqrt 0 = 0)
    (h : Reachable oracle sqrt ts sem) :
    EdgeInv (ces ts) sem ∧ ∀ i, MotionOK (ts i) := by
  induction h with
  | init ts sem hts hsem =>
    constructor
    · intro e
      constructor
      · intro i j hi hj
        obtain ⟨ID, p, vi, r, hval⟩ := hts i
        have hpr : ces ts i = (ts i).currentEdge := rfl
        rw [hpr, hval] at hi
        simp [trainInit] at hi
      · constructor
        · rintro ⟨i, hi⟩
          obtain ⟨ID, p, vi, r, hval⟩ := hts i
          have hpr : ces ts i = (ts i).currentEdge := rfl
          rw [hpr, hval] at hi
          simp [trainInit] at hi
        · intro hf
          exact absurd hf (hsem _)
    · intro i
      obtain ⟨ID, p, vi, r, hval⟩ := hts i
      rw [hval]
      exact ⟨rfl, fun _ => rfl⟩
  | recv ts sem i m h ih =>
    obtain ⟨hinv, hok⟩ := ih
    constructor
    · rw [ces_update, (receive_message_motion (ts i) m).1]
      have hpr : (ts i).currentEdge = ces ts i := rfl
      rw [hpr, Function.update_eq_self]
      exact hinv
    · intro j
      by_cases hj : j = i
      · subst hj
        rw [Function.update_same]
        obtain ⟨h1, h2, h3⟩ := receive_message_motion (ts j) m
        obtain ⟨g1, g2⟩ := hok j
        exact ⟨h3.trans g1, fun hv => h1.trans (g2 (h2.symm.trans hv))⟩
      · rw [Function.update_noteq hj]
        exact hok j
  | dostep ts sem i t' sem' out h hs ih =>
    obtain ⟨hinv, hok⟩ := ih
    have hstep := step_pres oracle sqrt (ces ts) i (ts i) t' sem sem' out hsqrt
      (hok i) rfl hinv hs
    constructor
    · rw [ces_update]
      exact hstep.1
    · intro j
      by_cases hj : j = i
      · subst hj
        rw [Function.update_same]
        exact hstep.2
      · rw [Function.update_noteq hj]
        exact hok j

/-- C1: edge mutual exclusion.  In every reachable state of the simulation,
for every canonical edge key at most one train has that key as its
`currentEdge`, and such a train exists exactly when the shared `EdgeSemaphore`
maps the key to `False`.  A train acquires an edge only through the
check-and-set in `move` (staying stopped when the key maps to `False`,
otherwise setting it to `False` and recording `currentEdge`), and releases it
(sets `True`, clears `currentEdge`) upon reaching `path[0]`, as the
definitions `moveAcquire` and `moveUpd` record. -/
theorem edge_mutual_exclusion {ι : Type} [DecidableEq ι]
    (oracle : α × α → α × α → Option (List (α × α) × α)) (sqrt : α → α)
    (ts : ι → Train α) (sem : Sem) (hsqrt : sqrt 0 = 0)
    (h : Reachable oracle sqrt ts sem) :
    ∀ e : ℕ × ℕ,
      (∀ i j, (ts i).currentEdge = some e → (ts j).currentEdge = some e → i = j) ∧
      ((∃ i, (ts i).currentEdge = some e) ↔ sem (some e) = some false) :=
  (reachable_inv oracle sqrt ts sem hsqrt h).1

/-- Witness for C1: a concrete one-train initial state over ℚ. -/
theorem edge_mutual_exclusion_witness :
    ((fun _ : ℚ => (0 : ℚ)) 0 = 0) ∧
    EdgeInv (ces (fun _ : Fin 1 => trainInit 0 ((0 : ℚ), 0) (fun _ => none) 1))
      (fun _ => none) :=
  ⟨rfl,
    edge_mutual_exclusion (fun _ _ => none) (fun _ => 0)
      (fun _ => trainInit 0 ((0 : ℚ), 0) (fun _ => none) 1) (fun _ => none) rfl
      (Reachable.init _ _ (fun _ => ⟨0, ((0 : ℚ), 0), fun _ => none, 1, rfl⟩)
        (fun _ hk => Option.noConfusion hk))⟩

/-! ## Claims C2-C10 -/

/-- C2 (code-bug evidence): a busy train with two queued clients reaching the
head's dropoff removes the LAST queued client (`self.client.pop()`, Train.py
line 248) and re-targets the head's own pickup — the delivered head stays
queued and the later client is dropped — instead of popping the head and
targeting the second client's pickup. -/
theorem busy_arrival_pops_last :
    (arrivalPhase { trainInit 5 ((5 : ℚ), 0) (fun _ => none) 1 with
        trainMode := TrainModes.busy
        client := [(1, ((0 : ℚ), 0), ((5 : ℚ), 0)), (2, ((9 : ℚ), 9), ((8 : ℚ), 8))]
        currentGoal := some ((5 : ℚ), 0) }).map
      (fun t => (t.client, t.trainMode, t.currentGoal)) =
    some ([(1, ((0 : ℚ), 0), ((5 : ℚ), 0))], TrainModes.accept, some ((0 : ℚ), 0)) := by
  simp [arrivalPhase, trainInit]

/-- C3 counterexample: two distinct REQ messages from the SAME sender (id 1),
m1 with pickup (1,1) then m2 with pickup (2,2), are enqueued into an empty
inbox (both accepted by the receive filter); the message consumed first by
`step` (through `stepPopMessage`, the translation of `messageBuffer.pop()`)
is m2, not m1 — even per sender the inbox is a stack, not FIFO. -/
theorem inbox_not_fifo :
    (stepPopMessage (receive_message (receive_message
        (trainInit 0 ((0 : ℚ), 0) (fun _ => none) 1)
        { nType := MsgTypes.req, sender := 1, pickUp := some ((1 : ℚ), 1) })
        { nType := MsgTypes.req, sender := 1, pickUp := some ((2 : ℚ), 2) })).1 =
      some { nType := MsgTypes.req, sender := 1, pickUp := some ((2 : ℚ), 2) } ∧
    ({ nType := MsgTypes.req, sender := 1, pickUp := some ((2 : ℚ), 2) } : Msg ℚ).sender =
      ({ nType := MsgTypes.req, sender := 1, pickUp := some ((1 : ℚ), 1) } : Msg ℚ).sender ∧
    ({ nType := MsgTypes.req, sender := 1, pickUp := some ((2 : ℚ), 2) } : Msg ℚ) ≠
      { nType := MsgTypes.req, sender := 1, pickUp := some ((1 : ℚ), 1) } := by
  refine ⟨?_, rfl, ?_⟩
  · simp [stepPopMessage, receive_message, trainInit]
  · intro hh
    rw [Msg.mk.injEq] at hh
    have h22 : some (((2 : ℚ), 2) : ℚ × ℚ) = some ((1 : ℚ), 1) := hh.2.2.2.2.2.1
    rw [Option.some_inj, Prod.mk.injEq] at h22
    exact absurd h22.1 (by norm_num)

omit [LinearOrderedField α] in
/-- C3 amended: the inbox is LIFO.  If m1 then m2 are enqueued into an empty
buffer (both passing the receive filter as REQ), the next `step` consumes m2
first and the step after that consumes m1: messages are observed in reverse
enqueue order. -/
theorem inbox_lifo (t : Train α) (m1 m2 : Msg α)
    (hbuf : t.messageBuffer = [])
    (h1 : m1.nType = MsgTypes.req) (h2 : m2.nType = MsgTypes.req) :
    (stepPopMessage (receive_message (receive_message t m1) m2)).1 = some m2 ∧
    (stepPopMessage (stepPopMessage (receive_message (receive_message t m1) m2)).2).1 =
      some m1 := by
  constructor
  · simp [stepPopMessage, receive_message, hbuf, h1, h2]
  · simp [stepPopMessage, receive_message, hbuf, h1, h2]

/-- Witness for C3's amended theorem at concrete messages over ℚ. -/
theorem inbox_lifo_witness :
    ((trainInit 3 ((0 : ℚ), 0) (fun _ => none) 1).messageBuffer = [] ∧
      ({ nType := MsgTypes.req, sender := 1 } : Msg ℚ).nType = MsgTypes.req ∧
      ({ nType := MsgTypes.req, sender := 2 } : Msg ℚ).nType = MsgTypes.req) ∧
    ((stepPopMessage (receive_message (receive_message
          (trainInit 3 ((0 : ℚ), 0) (fun _ => none) 1)
          { nType := MsgTypes.req, sender := 1 })
          { nType := MsgTypes.req, sender := 2 })).1 =
        some { nType := MsgTypes.req, sender := 2 } ∧
      (stepPopMessage (stepPopMessage (receive_message (receive_message
          (trainInit 3 ((0 : ℚ), 0) (fun _ => none) 1)
          { nType := MsgTypes.req, sender := 1 })
          { nType := MsgTypes.req, sender := 2 })).2).1 =
        some { nType := MsgTypes.req, sender := 1 }) :=
  ⟨⟨rfl, rfl, rfl⟩,
    inbox_lifo (trainInit 3 ((0 : ℚ), 0) (fun _ => none) 1)
      { nType := MsgTypes.req, sender := 1 }
      { nType := MsgTypes.req, sender := 2 } rfl rfl rfl⟩

/-- C4 (code-bug evidence): on an equal-distance ELEC the receiving train
takes the lose branch regardless of train ids (Train.py lines 165-171; the
tie is an open TODO at line 163).  Here the train with the LOWER id (0)
receives an equal-distance ELEC from the higher id (1) and nevertheless
abandons the election — it clears `pending`, records `outOfElec`, and sends
nothing, the opposite of the claimed lower-id-wins rule. -/
theorem tie_lower_id_loses :
    (processMessage (fun _ _ => none) (fun _ => 0)
        { trainInit 0 ((0 : ℚ), 0) (fun _ => none) 3 with
          unprocessedReqs :=
            some ⟨5, ((1 : ℚ), 1), ((2 : ℚ), 2), 1, false, some 4, some [], 0⟩ }
        { nType := MsgTypes.elec, sender := 1, clientID := some 5, distance := some 4 }).map
      (fun r => (r.1.unprocessedReqs, r.1.outOfElec, r.2)) =
    some (none, some 5, []) := by
  simp [processMessage, trainInit, full_distance]

/-- C5: an incoming LEADER for the pending client has exactly the effect of
an ELEC_ACK: `pending` is cleared, `outOfElec` is set to the client id, no
message is emitted, and the resulting state coincides with processing the
same message retagged as ELEC_ACK. -/
theorem leader_same_as_elec_ack
    (oracle : α × α → α × α → Option (List (α × α) × α)) (sqrt : α → α)
    (t : Train α) (p : Pend α) (c : ℕ) (m : Msg α)
    (hp : t.unprocessedReqs = some p) (hid : p.ID = c)
    (hty : m.nType = MsgTypes.leader) (hcl : m.clientID = some c) :
    processMessage oracle sqrt t m =
      some ({ t with outOfElec := some c, unprocessedReqs := none }, []) ∧
    processMessage oracle sqrt t m =
      processMessage oracle sqrt t { m with nType := MsgTypes.elec_ack } := by
  constructor
  · simp [processMessage, hty, hp, hid, hcl]
  · simp [processMessage, hty, hp, hid, hcl]

/-- Witness for C5 at a concrete train and LEADER message over ℚ. -/
theorem leader_same_as_elec_ack_witness :
    (({ trainInit 0 ((0 : ℚ), 0) (fun _ => none) 3 with
          unprocessedReqs :=
            some ⟨5, ((1 : ℚ), 1), ((2 : ℚ), 2), 1, true, some 4, some [], 0⟩ } :
        Train ℚ).unprocessedReqs =
        some ⟨5, ((1 : ℚ), 1), ((2 : ℚ), 2), 1, true, some 4, some [], 0⟩ ∧
      ({ nType := MsgTypes.leader, sender := 1, clientID := some 5 } : Msg ℚ).nType =
        MsgTypes.leader) ∧
    processMessage (fun _ _ => none) (fun _ => 0)
        { trainInit 0 ((0 : ℚ), 0) (fun _ => none) 3 with
          unprocessedReqs :=
            some ⟨5, ((1 : ℚ), 1), ((2 : ℚ), 2), 1, true, some 4, some [], 0⟩ }
        { nType := MsgTypes.leader, sender := 1, clientID := some 5 } =
      some ({ { trainInit 0 ((0 : ℚ), 0) (fun _ => none) 3 with
                unprocessedReqs :=
                  some ⟨5, ((1 : ℚ), 1), ((2 : ℚ), 2), 1, true, some 4, some [], 0⟩ } with
              outOfElec := some 5, unprocessedReqs := none }, []) :=
  ⟨⟨rfl, rfl⟩,
    (leader_same_as_elec_ack (fun _ _ => none) (fun _ => 0)
      { trainInit 0 ((0 : ℚ), 0) (fun _ => none) 3 with
        unprocessedReqs :=
          some ⟨5, ((1 : ℚ), 1), ((2 : ℚ), 2), 1, true, some 4, some [], 0⟩ }
      ⟨5, ((1 : ℚ), 1), ((2 : ℚ), 2), 1, true, some 4, some [], 0⟩ 5
      { nType := MsgTypes.leader, sender := 1, clientID := some 5 }
      rfl rfl rfl rfl).1⟩

/-- C6: REQ ingress.  For a REQ carrying pickup and dropoff, a train that is
not out of order and has no pending request computes a route from its current
position (`wait`) or from the last vertex of `path` (`accept`/`busy`), stores
`pending` with `delayT = 0`, `msgWait = 0`, `inElections = false` and the
oracle's route and distance, and immediately emits a REQ_ACK addressed to the
requesting client; a REQ arriving while `pending` is non-empty, or while the
train is out of order, is ignored and leaves the train unchanged. -/
theorem req_ingress (oracle : α × α → α × α → Option (List (α × α) × α))
    (sqrt : α → α) (t : Train α) (m : Msg α) (pu dof : α × α)
    (hty : m.nType = MsgTypes.req) (hpu : m.pickUp = some pu)
    (hdof : m.dropOff = some dof) :
    (t.trainMode = TrainModes.wait → t.unprocessedReqs = none →
      processMessage oracle sqrt t m =
        some ({ t with unprocessedReqs := some ⟨m.sender, pu, dof, 0, false,
            (oracle t.pos pu).map (·.2), (oracle t.pos pu).map (·.1), 0⟩ },
          [{ nType := MsgTypes.req_ack, sender := t.id, receiver := some m.sender }])) ∧
    (∀ lastV, (t.trainMode = TrainModes.accept ∨ t.trainMode = TrainModes.busy) →
      t.unprocessedReqs = none → t.path.getLast? = some lastV →
      processMessage oracle sqrt t m =
        some ({ t with unprocessedReqs := some ⟨m.sender, pu, dof, 0, false,
            (oracle lastV pu).map (·.2), (oracle lastV pu).map (·.1), 0⟩ },
          [{ nType := MsgTypes.req_ack, sender := t.id, receiver := some m.sender }])) ∧
    (∀ p, t.unprocessedReqs = some p → t.trainMode ≠ TrainModes.outOfOrder →
      processMessage oracle sqrt t m = some (t, [])) ∧
    (t.trainMode = TrainModes.outOfOrder →
      processMessage oracle sqrt t m = some (t, [])) := by
  refine ⟨?_, ?_, ?_, ?_⟩
  · intro hw hreq
    simp [processMessage, hty, hw, hreq, hpu, hdof, acknowlege_request]
  · intro lastV hmode hreq hlast
    rcases hmode with hmode | hmode <;>
      simp [processMessage, hty, hmode, hreq, hpu, hdof, hlast, acknowlege_request]
  · intro p hp hne
    simp [processMessage, hty, hp, hne]
  · intro ho
    simp [processMessage, hty, ho]

/-- Witness for C6 (the `wait` ingress branch) with the in-tree routing stub
`calculate_route`, whose result `([], 4)` lands in `pending`. -/
theorem req_ingress_witness :
    (({ nType := MsgTypes.req, sender := 7, pickUp := some ((1 : ℚ), 2),
        dropOff := some ((3 : ℚ), 4) } : Msg ℚ).nType = MsgTypes.req ∧
      (trainInit 0 ((0 : ℚ), 0) (fun _ => none) 3).trainMode = TrainModes.wait ∧
      (trainInit 0 ((0 : ℚ), 0) (fun _ => none) 3).unprocessedReqs = none) ∧
    processMessage calculate_route (fun _ => 0)
        (trainInit 0 ((0 : ℚ), 0) (fun _ => none) 3)
        { nType := MsgTypes.req, sender := 7, pickUp := some ((1 : ℚ), 2),
          dropOff := some ((3 : ℚ), 4) } =
      some ({ trainInit 0 ((0 : ℚ), 0) (fun _ => none) 3 with
              unprocessedReqs :=
                some ⟨7, ((1 : ℚ), 2), ((3 : ℚ), 4), 0, false, some 4, some [], 0⟩ },
        [{ nType := MsgTypes.req_ack, sender := 0, receiver := some 7 }]) :=
  ⟨⟨rfl, rfl, rfl⟩,
    (req_ingress calculate_route (fun _ => 0)
      (trainInit 0 ((0 : ℚ), 0) (fun _ => none) 3)
      { nType := MsgTypes.req, sender := 7, pickUp := some ((1 : ℚ), 2),
        dropOff := some ((3 : ℚ), 4) }
      ((1 : ℚ), 2) ((3 : ℚ), 4) rfl rfl rfl).1 rfl rfl⟩

/-- C7: election start.  While `pending` is non-empty and `inElections` is
false, the timer phase of each `step` increments `delayT` by exactly 1; on
the step where `delayT` equals `delayWanted`, the election phase sets
`inElections` to true, resets `msgWait` to 0, and broadcasts an ELEC message
whose distance is `simpleD` plus `full_distance` of `path` (the sum of
Euclidean lengths of successive path vertices, 0 for an empty path). -/
theorem election_start (sqrt : α → α) (t : Train α) (p : Pend α) (sd : α)
    (hp : t.unprocessedReqs = some p) :
    (p.inElections = false →
      (stepTimers t).unprocessedReqs = some { p with delayT := p.delayT + 1 }) ∧
    (p.inElections = false → p.delayT = t.delayWanted → p.simpleD = some sd →
      electionPhase sqrt t =
        some ({ t with unprocessedReqs := some { p with inElections := true, msgWait := 0 } },
          [{ nType := MsgTypes.elec, sender := t.id, clientID := some p.ID,
             distance := some (sd + full_distance sqrt t.path) }])) ∧
    full_distance sqrt ([] : List (α × α)) = 0 := by
  refine ⟨?_, ?_, rfl⟩
  · intro hine
    simp [stepTimers, hp, hine]
  · intro hine hdel hsd
    simp [electionPhase, hp, hine, hdel, hsd, start_election]

/-- Witness for C7 at a concrete pending request over ℚ. -/
theorem election_start_witness :
    (({ trainInit 0 ((0 : ℚ), 0) (fun _ => none) 2 with
          unprocessedReqs :=
            some ⟨9, ((1 : ℚ), 0), ((2 : ℚ), 0), 2, false, some 4, some [], 0⟩ } :
        Train ℚ).unprocessedReqs =
        some ⟨9, ((1 : ℚ), 0), ((2 : ℚ), 0), 2, false, some 4, some [], 0⟩) ∧
    electionPhase (fun _ => 0)
        { trainInit 0 ((0 : ℚ), 0) (fun _ => none) 2 with
          unprocessedReqs :=
            some ⟨9, ((1 : ℚ), 0), ((2 : ℚ), 0), 2, false, some 4, some [], 0⟩ } =
      some ({ trainInit 0 ((0 : ℚ), 0) (fun _ => none) 2 with
              unprocessedReqs :=
                some ⟨9, ((1 : ℚ), 0), ((2 : ℚ), 0), 2, true, some 4, some [], 0⟩ },
        [{ nType := MsgTypes.elec, sender := 0, clientID := some 9,
           distance := some ((4 : ℚ) + full_distance (fun _ => 0) []) }]) :=
  ⟨rfl,
    (election_start (fun _ => 0)
      { trainInit 0 ((0 : ℚ), 0) (fun _ => none) 2 with
        unprocessedReqs :=
          some ⟨9, ((1 : ℚ), 0), ((2 : ℚ), 0), 2, false, some 4, some [], 0⟩ }
      ⟨9, ((1 : ℚ), 0), ((2 : ℚ), 0), 2, false, some 4, some [], 0⟩ 4
      rfl).2.1 rfl rfl rfl⟩

/-- C8 (code-bug evidence): with a routing oracle that reports no route, the
REQ branch still enters `pending` (with `route = None`, `simpleD = None`) and
still emits REQ_ACK — Train.py lines 114-134 have no decline path.  The
second conjunct records that the in-tree stub `calculate_route` never
reports no route, so the mandated decline is simply unimplemented. -/
theorem no_route_not_declined :
    (processMessage (fun _ _ => none) (fun _ => 0)
        (trainInit 0 ((0 : ℚ), 0) (fun _ => none) 3)
        { nType := MsgTypes.req, sender := 7, pickUp := some ((1 : ℚ), 2),
          dropOff := some ((3 : ℚ), 4) }).map
      (fun r => (r.1.unprocessedReqs, r.2)) =
    some (some ⟨7, ((1 : ℚ), 2), ((3 : ℚ), 4), 0, false, none, none, 0⟩,
      [{ nType := MsgTypes.req_ack, sender := 0, receiver := some 7 }]) ∧
    calculate_route ((0 : ℚ), 0) ((1 : ℚ), 2) = some ([], 4) := by
  constructor
  · simp [processMessage, trainInit, acknowlege_request]
  · rfl

/-- C9 counterexample: Python's `randint(1, 11)` includes both endpoints, so
the draw 11 is possible and yields `delayWanted = 11`, outside [1, 10]. -/
theorem delayWanted_eleven :
    randint_bound 1 11 11 ∧
    (trainInit 0 ((0 : ℚ), 0) (fun _ => none) 11).delayWanted = 11 ∧
    ¬ ((trainInit 0 ((0 : ℚ), 0) (fun _ => none) 11).delayWanted ≤ 10) := by
  refine ⟨⟨by norm_num, le_refl 11⟩, rfl, ?_⟩
  intro hh
  simp [trainInit] at hh

/-- C9 amended: for every newly constructed train, `delayWanted` is an
integer in the closed interval [1, 11], the inclusive range of
`randint(1, 11)`. -/
theorem delayWanted_range (ID : ℕ) (pos0 : α × α) (vi : α × α → Option ℕ)
    (r : ℕ) (hr : randint_bound 1 11 r) :
    1 ≤ (trainInit ID pos0 vi r).delayWanted ∧
    (trainInit ID pos0 vi r).delayWanted ≤ 11 :=
  ⟨hr.1, hr.2⟩

/-- Witness for C9's amended theorem. -/
theorem delayWanted_range_witness :
    randint_bound 1 11 4 ∧
    (1 ≤ (trainInit 2 ((0 : ℚ), 0) (fun _ => none) 4).delayWanted ∧
      (trainInit 2 ((0 : ℚ), 0) (fun _ => none) 4).delayWanted ≤ 11) :=
  ⟨⟨by norm_num, by norm_num⟩,
    delayWanted_range 2 ((0 : ℚ), 0) (fun _ => none) 4 ⟨by norm_num, by norm_num⟩⟩

/-- C10: if `move` runs while `pos` already equals `path[0]`, the train is
stopped and `currentEdge` is `None` (as after appending a route whose first
vertex is the current position), the release branch executes
`semaphore[currentEdge] = True` with `currentEdge = None`: the spurious key
`None` is inserted into the shared mapping (it maps to `True` afterwards,
where it was absent before) instead of the release being skipped. -/
theorem spurious_none_release (sqrt : α → α) (t : Train α) (sem : Sem)
    (p0 : α × α) (rest : List (α × α))
    (hpath : t.path = p0 :: rest) (hpos : t.pos = p0) (hce : t.currentEdge = none)
    (hv : t.v = (0, 0)) (hgoal : t.currentGoal = some p0)
    (hsem : sem none = none) :
    (move sqrt t sem).map (fun r => r.2 none) = some (some true) ∧ sem none = none := by
  refine ⟨?_, hsem⟩
  simp [move, moveUpd, hpath, hpos, hv, hce, hgoal, semInsert]

/-- Witness for C10 at a concrete train over ℚ whose path starts at its own
position. -/
theorem spurious_none_release_witness :
    (({ trainInit 0 ((0 : ℚ), 0) (fun _ => none) 1 with
          path := [((0 : ℚ), 0)], currentGoal := some ((0 : ℚ), 0) } :
        Train ℚ).path = [((0 : ℚ), 0)] ∧
      (fun _ : Option (ℕ × ℕ) => (none : Option Bool)) none = none) ∧
    (move (fun _ => 0)
        { trainInit 0 ((0 : ℚ), 0) (fun _ => none) 1 with
          path := [((0 : ℚ), 0)], currentGoal := some ((0 : ℚ), 0) }
        (fun _ => none)).map (fun r => r.2 none) = some (some true) :=
  ⟨⟨rfl, rfl⟩,
    (spurious_none_release (fun _ => 0)
      { trainInit 0 ((0 : ℚ), 0) (fun _ => none) 1 with
        path := [((0 : ℚ), 0)], currentGoal := some ((0 : ℚ), 0) }
      (fun _ => none) ((0 : ℚ), 0) [] rfl rfl rfl rfl rfl rfl).1⟩

end TrainSim
